import Mathlib

/-!
Verification of the slot-availability logic of the DocterDash backend
(`src/controllers/docter.controller.js`), shallowly embedded in Lean.

The embedded operations:
* `parseHM` — `start.split(":")` destructuring plus `Number` conversion to
  minutes-since-midnight (`h * 60 + m`).
* `fmtHM` — `Math.floor(startMin / 60).toString().padStart(2, "0")` joined by
  `":"` with `(startMin % 60).toString().padStart(2, "0")`.
* `slotLoopF` — the `while (startMin < endMin)` loop of `getDoctorSlotsForDate`,
  line 168–176, made total with an explicit fuel argument: `none` means the
  fuel was exhausted while the loop guard still held, i.e. the JavaScript
  loop would still be running.
* `resolveDaySchedule` — `doctor.scheduleTemplate?.find(d => d.dayOfWeek ===
  dayIndex && d.isWorking)`; the weekday index computed by
  `new Date(date).getDay()` is taken as an input, per the spec's input
  contract ("a target date, unambiguous weekday resolution").
* `annotateAvailability` — `generatedSlots.map(slot => ({time, status}))` with
  `bookedTimes.includes(slot)` deciding "booked" versus "available".
* `getAvailableSlots` — the composition, returning the slot list together with
  the optional "Doctor not available on selected date" message.
* `buildSearchFilters` — the filter object constructed by `searchDoctors`,
  lines 70–95.
-/

namespace DocterDash

/-- `s.padStart(2, "0")`: prepend zeros until the length is at least 2. -/
def padStart2 (s : String) : String :=
  ⟨List.replicate (2 - s.length) '0'⟩ ++ s

/-- Format minutes-since-midnight as zero-padded "HH:MM", exactly as the loop
body does: `Math.floor(startMin / 60)` is flooring division (`Int.fdiv`) and
the JavaScript `%` is truncating remainder (`Int.tmod`); for the nonnegative
values reachable from parsed times both agree with `/` and `%`. -/
def fmtHM (t : Int) : String :=
  padStart2 (Int.repr (Int.fdiv t 60)) ++ ":" ++ padStart2 (Int.repr (Int.tmod t 60))

/-- `s.split(sep)` for a one-character separator, on the character list:
split at every occurrence of `c` (so `"a:b:c"` gives three parts and a string
without the separator gives a single part, as in JavaScript). -/
def splitOnChar (c : Char) : List Char → List (List Char)
  | [] => [[]]
  | x :: xs =>
    if x = c then [] :: splitOnChar c xs
    else
      match splitOnChar c xs with
      | [] => [[x]]
      | y :: ys => (x :: y) :: ys

/-- Decimal accumulator for `decodeNat?`. -/
def decodeNatCore : List Char → Nat → Option Nat
  | [], acc => some acc
  | c :: cs, acc =>
    if c.isDigit then decodeNatCore cs (acc * 10 + (c.toNat - '0'.toNat)) else none

/-- `Number(str)` on the digit strings the schedule uses: the decimal value,
or `none` (modelling NaN) when the string is empty or has a non-digit.
(JavaScript's `Number("")` is `0`; no claim touches that corner, and every
general theorem below fixes the parsed value by hypothesis.) -/
def decodeNat? (l : List Char) : Option Nat :=
  match l with
  | [] => none
  | _ :: _ => decodeNatCore l 0

/-- `const [h, m] = s.split(":").map(Number); h * 60 + m`.  A result `none`
models a NaN total (missing second component or non-numeric part), in which
case the loop guard `startMin < endMin` is false and the session yields no
slots. -/
def parseHM (s : String) : Option Int :=
  match splitOnChar ':' s.data with
  | h :: m :: _ =>
    match decodeNat? h, decodeNat? m with
    | some hv, some mv => some ((hv : Int) * 60 + (mv : Int))
    | _, _ => none
  | _ => none

/-- A working session of a `DayTemplate` (spec §3). -/
structure Session where
  startTime : String
  endTime : String
  slotDurationMinutes : Int
deriving DecidableEq

/-- One weekday row of a doctor's `scheduleTemplate` (spec §3). -/
structure DayTemplate where
  dayOfWeek : Int
  isWorking : Bool
  sessions : List Session
deriving DecidableEq

/-- One entry of the response's `slots` array. -/
structure Slot where
  time : String
  status : String
deriving DecidableEq

/-- The `while (startMin < endMin)` loop (controller lines 168–176) with fuel:
each iteration pushes `fmtHM startMin` and advances by `d`.  `none` means the
fuel ran out with the guard still true — the JavaScript loop would still be
running after that many iterations. -/
def slotLoopF : Nat → Int → Int → Int → Option (List String)
  | 0, startMin, endMin, _ =>
    if startMin < endMin then none else some []
  | fuel + 1, startMin, endMin, d =>
    if startMin < endMin then
      (slotLoopF fuel (startMin + d) endMin d).map (fun rest => fmtHM startMin :: rest)
    else some []

/-- Slot generation for one session, fuel-indexed.  Unparseable times give a
NaN guard, which is false, so the session contributes no slots. -/
def sessionSlotsF (fuel : Nat) (s : Session) : Option (List String) :=
  match parseHM s.startTime, parseHM s.endTime with
  | some startMin, some endMin => slotLoopF fuel startMin endMin s.slotDurationMinutes
  | _, _ => some []

/-- Slot generation for one session.  With a positive duration the loop runs at
most `endMin - startMin` iterations, so that much fuel always suffices
(`slotLoopF_complete` below); this extraction therefore coincides with the
JavaScript loop whenever the loop terminates. -/
def sessionSlots (s : Session) : List String :=
  match parseHM s.startTime, parseHM s.endTime with
  | some startMin, some endMin =>
    (slotLoopF (endMin - startMin).toNat startMin endMin s.slotDurationMinutes).getD []
  | _, _ => []

/-- `generatedSlots`: sessions are processed by `forEach` in listed order and
each slot is pushed onto one shared array — a concatenation. -/
def generateSlots (day : DayTemplate) : List String :=
  (day.sessions.map sessionSlots).flatten

/-- Number of loop iterations, fuel-indexed (for stating closed forms). -/
def numSlotsF : Nat → Int → Int → Int → Nat
  | 0, _, _, _ => 0
  | fuel + 1, startMin, endMin, d =>
    if startMin < endMin then numSlotsF fuel (startMin + d) endMin d + 1 else 0

/-- Number of slots a terminating session loop emits. -/
def numSlots (startMin endMin d : Int) : Nat :=
  numSlotsF (endMin - startMin).toNat startMin endMin d

/-- `generatedSlots.map(slot => ({time: slot, status: bookedTimes.includes(slot)
? "booked" : "available"}))` (controller lines 188–191). -/
def annotateAvailability (generatedSlots bookedTimes : List String) : List Slot :=
  generatedSlots.map fun slot =>
    { time := slot
      status := if bookedTimes.contains slot then "booked" else "available" }

/-- `doctor.scheduleTemplate?.find(d => d.dayOfWeek === dayIndex && d.isWorking)`
(controller lines 146–148). -/
def resolveDaySchedule (template : List DayTemplate) (dayIndex : Int) :
    Option DayTemplate :=
  template.find? fun d => d.dayOfWeek == dayIndex && d.isWorking

/-- The slot payload of the response: the `slots` array plus the optional
`message` field, which the controller includes only in the not-available
branch (lines 150–156). -/
structure SlotsResponse where
  slots : List Slot
  message : Option String
deriving DecidableEq

/-- The slot-availability calculator: resolve the weekday row, generate the
slots, annotate each against the booked start times (controller lines
145–197). -/
def getAvailableSlots (template : List DayTemplate) (dayIndex : Int)
    (bookedTimes : List String) : SlotsResponse :=
  match resolveDaySchedule template dayIndex with
  | none => { slots := [], message := some "Doctor not available on selected date" }
  | some day =>
    { slots := annotateAvailability (generateSlots day) bookedTimes, message := none }

/-- The query parameters destructured by `searchDoctors` (each may be absent). -/
structure SearchQuery where
  specialty : Option String
  city : Option String
  consultationType : Option String
  supportsEmergency : Option String
  lat : Option String
  lng : Option String
  radiusKm : Option String
deriving DecidableEq

/-- JavaScript truthiness of an optional query-string parameter: present and
not the empty string. -/
def jsTruthy : Option String → Bool
  | none => false
  | some s => !(s == "")

/-- The Mongo filter object built by `searchDoctors` (controller lines 70–95).
`none` models an absent key.  The geospatial `$near` value (built from
`parseFloat` coordinates) belongs to the repository collaborator; only the
presence of the `clinic.location` key is modelled. -/
structure DoctorFilters where
  status : String
  isAcceptingNewPatients : Bool
  specialties : Option String
  clinicCity : Option String
  consultTelemedicine : Option Bool
  consultInClinic : Option Bool
  supportsEmergency : Option Bool
  hasLocationFilter : Bool
deriving DecidableEq

/-- Filter construction of `searchDoctors`: the base object always carries
`status: "active"` and `isAcceptingNewPatients: true`; each conditional key
mirrors one `if` of lines 75–95 (the `consultationType` checks form an
`if / else if` chain). -/
def buildSearchFilters (q : SearchQuery) : DoctorFilters :=
  { status := "active"
    isAcceptingNewPatients := true
    specialties := if jsTruthy q.specialty then q.specialty else none
    clinicCity := if jsTruthy q.city then q.city else none
    consultTelemedicine :=
      if q.consultationType == some "telemedicine" then some true else none
    consultInClinic :=
      if q.consultationType == some "telemedicine" then none
      else if q.consultationType == some "inClinic" then some true else none
    supportsEmergency := if q.supportsEmergency == some "true" then some true else none
    hasLocationFilter := jsTruthy q.lat && jsTruthy q.lng && jsTruthy q.radiusKm }

/-- Most-significant-first decimal digit characters of a natural number: the
reference recurrence for core's `Nat.toDigits 10` (proved equal below), used
to reason about the zero-padded strings `fmtHM` produces. -/
def natDigits (n : Nat) : List Char :=
  if _h : n < 10 then [Nat.digitChar n]
  else natDigits (n / 10) ++ [Nat.digitChar (n % 10)]
termination_by n
decreasing_by omega

/-! ### Loop lemmas: the `while (startMin < endMin)` loop -/

theorem numSlotsF_of_ge (fuel : Nat) (startMin endMin d : Int)
    (h : ¬ startMin < endMin) : numSlotsF fuel startMin endMin d = 0 := by
  cases fuel with
  | zero => rfl
  | succ f => simp [numSlotsF, h]

theorem slotLoopF_of_ge (fuel : Nat) (startMin endMin d : Int)
    (h : ¬ startMin < endMin) : slotLoopF fuel startMin endMin d = some [] := by
  cases fuel with
  | zero => simp [slotLoopF, h]
  | succ f => simp [slotLoopF, h]

/-- With a positive step, any two sufficient fuels count the same number of
iterations. -/
theorem numSlotsF_congr (endMin d : Int) (hd : 0 < d) :
    ∀ f1 f2 startMin, (endMin - startMin).toNat ≤ f1 →
      (endMin - startMin).toNat ≤ f2 →
      numSlotsF f1 startMin endMin d = numSlotsF f2 startMin endMin d := by
  intro f1
  induction f1 with
  | zero =>
    intro f2 sm h1 h2
    have hge : ¬ sm < endMin := by omega
    rw [numSlotsF_of_ge 0 _ _ _ hge, numSlotsF_of_ge f2 _ _ _ hge]
  | succ f ih =>
    intro f2 sm h1 h2
    by_cases hlt : sm < endMin
    · cases f2 with
      | zero => omega
      | succ f2 =>
        simp only [numSlotsF, if_pos hlt]
        rw [ih f2 (sm + d) (by omega) (by omega)]
    · rw [numSlotsF_of_ge _ _ _ _ hlt, numSlotsF_of_ge _ _ _ _ hlt]

/-- With a positive step and sufficient fuel the loop terminates and emits
exactly the formatted times `startMin + k * d` for `k` below the iteration
count. -/
theorem slotLoopF_eq (endMin d : Int) (hd : 0 < d) :
    ∀ fuel startMin, (endMin - startMin).toNat ≤ fuel →
      slotLoopF fuel startMin endMin d =
        some ((List.range (numSlotsF fuel startMin endMin d)).map
          fun k : Nat => fmtHM (startMin + (k : Int) * d)) := by
  intro fuel
  induction fuel with
  | zero =>
    intro sm h
    have hge : ¬ sm < endMin := by omega
    simp [slotLoopF, numSlotsF, hge]
  | succ f ih =>
    intro sm h
    by_cases hlt : sm < endMin
    · simp only [slotLoopF, numSlotsF, if_pos hlt, ih (sm + d) (by omega),
        Option.map_some']
      congr 1
      rw [List.range_succ_eq_map, List.map_cons, List.map_map]
      congr 1
      · congr 1
        push_cast
        ring
      · apply List.map_congr_left
        intro a _
        simp only [Function.comp_apply]
        congr 1
        push_cast
        ring
    · rw [slotLoopF_of_ge _ _ _ _ hlt, numSlotsF_of_ge _ _ _ _ hlt]
      simp

/-- With a positive step and sufficient fuel, the iteration count counts
exactly the `k` with `startMin + k * d < endMin`. -/
theorem numSlotsF_lt_iff (endMin d : Int) (hd : 0 < d) :
    ∀ fuel startMin, (endMin - startMin).toNat ≤ fuel → ∀ k : Nat,
      (k < numSlotsF fuel startMin endMin d ↔ startMin + k * d < endMin) := by
  intro fuel
  induction fuel with
  | zero =>
    intro sm h k
    have hge : ¬ sm < endMin := by omega
    have hk : (0 : Int) ≤ (k : Int) * d := mul_nonneg (Int.natCast_nonneg k) (le_of_lt hd)
    rw [numSlotsF_of_ge 0 _ _ _ hge]
    omega
  | succ f ih =>
    intro sm h k
    by_cases hlt : sm < endMin
    · simp only [numSlotsF, if_pos hlt]
      cases k with
      | zero => simpa using hlt
      | succ j =>
        rw [Nat.succ_lt_succ_iff, ih (sm + d) (by omega) j]
        rw [show sm + d + (j : Int) * d = sm + ((j : Nat) + 1 : Nat) * d by push_cast; ring]
    · rw [numSlotsF_of_ge _ _ _ _ hlt]
      have hk : (0 : Int) ≤ (k : Int) * d := mul_nonneg (Int.natCast_nonneg k) (le_of_lt hd)
      omega

/-- When the step divides the (positive) session length, the iteration count
is the exact quotient. -/
theorem numSlots_of_dvd (startMin endMin d : Int) (hd : 0 < d)
    (hlt : startMin < endMin) (hdvd : d ∣ (endMin - startMin)) :
    (numSlots startMin endMin d : Int) = (endMin - startMin) / d := by
  obtain ⟨q, hq⟩ := hdvd
  rw [mul_comm] at hq
  have hq1 : 0 < q * d := by omega
  have hq0 : 0 < q := by
    rcases mul_pos_iff.mp hq1 with ⟨h1, _⟩ | ⟨_, h2⟩
    · exact h1
    · omega
  have hdiv : (endMin - startMin) / d = q := by
    rw [hq]
    exact Int.mul_ediv_cancel q (ne_of_gt hd)
  rw [hdiv]
  have key : ∀ k : Nat, (k < numSlots startMin endMin d ↔ (k : Int) < q) := by
    intro k
    rw [show numSlots startMin endMin d =
      numSlotsF (endMin - startMin).toNat startMin endMin d from rfl]
    rw [numSlotsF_lt_iff endMin d hd _ startMin le_rfl k]
    constructor
    · intro h1
      have h2 : (k : Int) * d < q * d := by omega
      exact lt_of_mul_lt_mul_right (by omega) (le_of_lt hd)
    · intro h1
      have h2 : (k : Int) * d < q * d := (mul_lt_mul_right hd).mpr h1
      omega
  have h1 := key (numSlots startMin endMin d)
  have h2 := key q.toNat
  omega

/-- A non-positive step with a strictly earlier start never terminates: no
amount of fuel completes the loop. -/
theorem slotLoopF_none_of_nonpos (endMin d : Int) (hd : d ≤ 0) :
    ∀ fuel startMin, startMin < endMin → slotLoopF fuel startMin endMin d = none := by
  intro fuel
  induction fuel with
  | zero =>
    intro sm h
    simp [slotLoopF, h]
  | succ f ih =>
    intro sm h
    simp only [slotLoopF, if_pos h]
    rw [ih (sm + d) (by omega)]
    rfl

/-- Closed form of `sessionSlots` for a session that parses and has a positive
duration. -/
theorem sessionSlots_closed (s : Session) (sm em : Int)
    (hs : parseHM s.startTime = some sm) (he : parseHM s.endTime = some em)
    (hd : 0 < s.slotDurationMinutes) :
    sessionSlots s = (List.range (numSlots sm em s.slotDurationMinutes)).map
      (fun k : Nat => fmtHM (sm + (k : Int) * s.slotDurationMinutes)) := by
  unfold sessionSlots
  simp only [hs, he]
  rw [slotLoopF_eq em s.slotDurationMinutes hd (em - sm).toNat sm le_rfl]
  simp [numSlots]

/-! ### Claim theorems -/

/-- **C1.** For a session whose `startTime` parses to `sm`, whose `endTime`
parses to `em` with `sm < em`, and whose duration `d` is a positive integer,
`sessionSlots` emits exactly the zero-padded "HH:MM" strings `fmtHM (sm + k*d)`
for `k = 0, 1, ...` while `sm + k*d < em` (the iteration count `numSlots`
characterises exactly those `k`); when `d` evenly divides `em - sm` the number
of emitted slots is `(em - sm) / d`; and the session ("09:00", "10:00", 20)
yields exactly ["09:00", "09:20", "09:40"]. -/
theorem generateSlots_arithmetic_progression (s : Session) (sm em : Int)
    (hs : parseHM s.startTime = some sm) (he : parseHM s.endTime = some em)
    (hlt : sm < em) (hd : 0 < s.slotDurationMinutes) :
    sessionSlots s = (List.range (numSlots sm em s.slotDurationMinutes)).map
      (fun k : Nat => fmtHM (sm + (k : Int) * s.slotDurationMinutes))
    ∧ (∀ k : Nat, k < numSlots sm em s.slotDurationMinutes ↔
        sm + (k : Int) * s.slotDurationMinutes < em)
    ∧ (s.slotDurationMinutes ∣ (em - sm) →
        (numSlots sm em s.slotDurationMinutes : Int) = (em - sm) / s.slotDurationMinutes)
    ∧ sessionSlots { startTime := "09:00", endTime := "10:00", slotDurationMinutes := 20 }
        = ["09:00", "09:20", "09:40"] := by
  refine ⟨sessionSlots_closed s sm em hs he hd, ?_, ?_, by decide⟩
  · exact numSlotsF_lt_iff em s.slotDurationMinutes hd (em - sm).toNat sm le_rfl
  · intro hdvd
    exact numSlots_of_dvd sm em s.slotDurationMinutes hd hlt hdvd

/-- Witness for `generateSlots_arithmetic_progression` at the session
("09:00", "10:00", 20), i.e. `sm = 540`, `em = 600`, `d = 20`. -/
theorem generateSlots_arithmetic_progression_witness :
    sessionSlots { startTime := "09:00", endTime := "10:00", slotDurationMinutes := 20 }
      = ["09:00", "09:20", "09:40"] :=
  (generateSlots_arithmetic_progression
    { startTime := "09:00", endTime := "10:00", slotDurationMinutes := 20 }
    540 600 rfl rfl (by decide) (by decide)).2.2.2

/-- **C2.** The claim says a session violating the contract is skipped
defensively (zero slots, request not failed).  The code satisfies this only
for `startTime ≥ endTime` (second conjunct: equal times yield zero slots).
For a session with `startTime < endTime` and non-positive `slotDurationMinutes`
— here ("09:00", "10:00", 0) — the `while` loop never terminates: no amount of
fuel completes it (first conjunct), so the session does not contribute "zero
slots" and the request never succeeds.  The code, not the claim, is at fault:
the spec explicitly calls for a defensive skip. -/
theorem contract_violation_not_skipped_zero_duration_hangs :
    (∀ fuel : Nat, sessionSlotsF fuel
      { startTime := "09:00", endTime := "10:00", slotDurationMinutes := 0 } = none)
    ∧ (∀ fuel : Nat, sessionSlotsF fuel
      { startTime := "10:00", endTime := "10:00", slotDurationMinutes := 30 } = some []) := by
  constructor
  · intro fuel
    have h : sessionSlotsF fuel
        { startTime := "09:00", endTime := "10:00", slotDurationMinutes := 0 } =
        slotLoopF fuel 540 600 0 := rfl
    rw [h]
    exact slotLoopF_none_of_nonpos 600 0 le_rfl fuel 540 (by decide)
  · intro fuel
    have h : sessionSlotsF fuel
        { startTime := "10:00", endTime := "10:00", slotDurationMinutes := 30 } =
        slotLoopF fuel 600 600 30 := rfl
    rw [h]
    exact slotLoopF_of_ge fuel 600 600 30 (by decide)

/-- **C3.** The claim says slot generation terminates for every input.  It does
not: for the session ("09:00", "09:30", -15) — start before end, negative
duration — the loop guard stays true forever (`startMin` only decreases), so
no amount of fuel completes the computation. -/
theorem slot_generation_nonterminating_on_negative_duration :
    ∀ fuel : Nat, sessionSlotsF fuel
      { startTime := "09:00", endTime := "09:30", slotDurationMinutes := -15 } = none := by
  intro fuel
  have h : sessionSlotsF fuel
      { startTime := "09:00", endTime := "09:30", slotDurationMinutes := -15 } =
      slotLoopF fuel 540 570 (-15) := rfl
  rw [h]
  exact slotLoopF_none_of_nonpos 570 (-15) (by decide) fuel 540 (by decide)

/-- **C4.** A slot produced by `annotateAvailability` has status "booked" iff
its time string is a member of the booked start-time list (exact string
equality — `List.Mem` on `String`), and status "available" iff it is not. -/
theorem annotateAvailability_booked_iff (generated booked : List String) (s : Slot)
    (hs : s ∈ annotateAvailability generated booked) :
    (s.status = "booked" ↔ s.time ∈ booked)
    ∧ (s.status = "available" ↔ s.time ∉ booked) := by
  obtain ⟨t, ht, rfl⟩ := List.mem_map.mp hs
  by_cases hb : t ∈ booked
  · simp [hb]
  · simp [hb]

/-- Witness for `annotateAvailability_booked_iff`: the slot produced for time
"09:00" with booked list ["09:00"]. -/
theorem annotateAvailability_booked_iff_witness :
    ((Slot.mk "09:00" "booked").status = "booked" ↔ ("09:00" : String) ∈ ["09:00"])
    ∧ ((Slot.mk "09:00" "booked").status = "available" ↔ ("09:00" : String) ∉ ["09:00"]) :=
  annotateAvailability_booked_iff ["09:00"] ["09:00"] ⟨"09:00", "booked"⟩ (by decide)

/-- **C5.** When no working `DayTemplate` matches the weekday, the result is an
empty slot list carrying the "Doctor not available on selected date" message —
a successful outcome, and distinct from "available but fully booked": the
message is present exactly when `resolveDaySchedule` found nothing, so a
fully-booked working day (non-empty slot list) never carries it. -/
theorem getAvailableSlots_not_working_day (template : List DayTemplate)
    (dayIndex : Int) (bookedTimes : List String)
    (h : resolveDaySchedule template dayIndex = none) :
    getAvailableSlots template dayIndex bookedTimes =
      { slots := [], message := some "Doctor not available on selected date" }
    ∧ ∀ t2 i2 b2, ((getAvailableSlots t2 i2 b2).message.isSome = true ↔
        resolveDaySchedule t2 i2 = none) := by
  constructor
  · rw [getAvailableSlots, h]
  · intro t2 i2 b2
    rw [getAvailableSlots]
    cases hr : resolveDaySchedule t2 i2 <;> simp

/-- Witness for `getAvailableSlots_not_working_day`: a template whose only
entry for weekday 2 is not working. -/
theorem getAvailableSlots_not_working_day_witness :
    getAvailableSlots [{ dayOfWeek := 2, isWorking := false, sessions := [] }] 2 [] =
      { slots := [], message := some "Doctor not available on selected date" } :=
  (getAvailableSlots_not_working_day
    [{ dayOfWeek := 2, isWorking := false, sessions := [] }] 2 [] (by decide)).1

/-- `List.find?` characterisation: a hit is a satisfying element preceded only
by non-satisfying ones. -/
theorem find?_eq_some_first {α : Type} (p : α → Bool) : ∀ (l : List α) (a : α),
    l.find? p = some a →
    p a = true ∧ ∃ pre post, l = pre ++ a :: post ∧ ∀ x ∈ pre, p x = false := by
  intro l
  induction l with
  | nil => intro a h; simp [List.find?] at h
  | cons x xs ih =>
    intro a h
    by_cases hx : p x
    · rw [List.find?_cons_of_pos _ hx] at h
      cases h
      exact ⟨hx, [], xs, rfl, by simp⟩
    · rw [List.find?_cons_of_neg _ (by simpa using hx)] at h
      obtain ⟨hpa, pre, post, heq, hpre⟩ := ih a h
      refine ⟨hpa, x :: pre, post, by simp [heq], ?_⟩
      intro y hy
      rcases List.mem_cons.mp hy with rfl | hy2
      · simpa using hx
      · exact hpre y hy2

/-- **C6.** `resolveDaySchedule` returns the first template entry whose
`dayOfWeek` equals the computed weekday index with `isWorking` true — even
with duplicate weekday entries, every earlier entry fails the test — and
returns `none` exactly when no entry satisfies both conditions. -/
theorem resolveDaySchedule_first_match (template : List DayTemplate) (dayIndex : Int) :
    (∀ d, resolveDaySchedule template dayIndex = some d →
      (d.dayOfWeek = dayIndex ∧ d.isWorking = true) ∧
      ∃ pre post, template = pre ++ d :: post ∧
        ∀ x ∈ pre, ¬(x.dayOfWeek = dayIndex ∧ x.isWorking = true))
    ∧ (resolveDaySchedule template dayIndex = none ↔
      ∀ x ∈ template, ¬(x.dayOfWeek = dayIndex ∧ x.isWorking = true)) := by
  constructor
  · intro d h
    obtain ⟨hp, pre, post, heq, hpre⟩ := find?_eq_some_first _ template d h
    refine ⟨by simpa using hp, pre, post, heq, ?_⟩
    intro x hx hcon
    have hfx := hpre x hx
    simp [hcon.1, hcon.2] at hfx
  · rw [resolveDaySchedule, List.find?_eq_none]
    constructor <;> intro hall x hx <;> have := hall x hx <;> simpa using this

/-- Witness for `resolveDaySchedule_first_match`: a template with duplicate
weekday-2 entries; the find resolves to the first working one. -/
theorem resolveDaySchedule_first_match_witness :
    (DayTemplate.mk 2 true []).dayOfWeek = 2 ∧ (DayTemplate.mk 2 true []).isWorking = true :=
  ((resolveDaySchedule_first_match
    [⟨2, false, []⟩, ⟨2, true, []⟩, ⟨2, true, [⟨"09:00", "10:00", 20⟩]⟩] 2).1
    ⟨2, true, []⟩ (by decide)).1

/-- **C7.** Slots of multiple sessions are concatenated in the sessions' listed
order with no deduplication or sorting (`generateSlots` is exactly the
flattening of the per-session lists), `annotateAvailability` preserves the
generation order (mapping each output slot to its time recovers the input
list), and the two-session scenario [("09:00","12:00",30), ("14:00","16:00",30)]
with booked times ["09:30","15:00"] yields exactly the ten slots in generation
order with "09:30" and "15:00" booked. -/
theorem multiSession_concatenation_order :
    (∀ generated booked : List String,
      (annotateAvailability generated booked).map Slot.time = generated)
    ∧ (∀ day : DayTemplate, generateSlots day = (day.sessions.map sessionSlots).flatten)
    ∧ annotateAvailability
        (generateSlots
          { dayOfWeek := 1, isWorking := true
            sessions := [⟨"09:00", "12:00", 30⟩, ⟨"14:00", "16:00", 30⟩] })
        ["09:30", "15:00"] =
      [⟨"09:00", "available"⟩, ⟨"09:30", "booked"⟩, ⟨"10:00", "available"⟩,
       ⟨"10:30", "available"⟩, ⟨"11:00", "available"⟩, ⟨"11:30", "available"⟩,
       ⟨"14:00", "available"⟩, ⟨"14:30", "available"⟩, ⟨"15:00", "booked"⟩,
       ⟨"15:30", "available"⟩] := by
  refine ⟨?_, fun day => rfl, by decide⟩
  intro generated booked
  simp [annotateAvailability, List.map_map, Function.comp_def]

/-- **C8.** `getAvailableSlots` is deterministic: two invocations with equal
inputs produce equal outputs (the embedding is a pure function of the
template, the weekday index and the booked start-time set; no hidden state). -/
theorem getAvailableSlots_deterministic (t1 t2 : List DayTemplate) (i1 i2 : Int)
    (b1 b2 : List String) (ht : t1 = t2) (hi : i1 = i2) (hb : b1 = b2) :
    getAvailableSlots t1 i1 b1 = getAvailableSlots t2 i2 b2 := by
  rw [ht, hi, hb]

/-- Witness for `getAvailableSlots_deterministic` at a concrete invocation. -/
theorem getAvailableSlots_deterministic_witness :
    getAvailableSlots [⟨1, true, [⟨"09:00", "10:00", 20⟩]⟩] 1 ["09:20"] =
      getAvailableSlots [⟨1, true, [⟨"09:00", "10:00", 20⟩]⟩] 1 ["09:20"] :=
  getAvailableSlots_deterministic _ _ _ _ _ _ rfl rfl rfl

theorem jsTruthy_ne_none (o : Option String) (h : jsTruthy o = true) : o ≠ none := by
  cases o with
  | none => simp [jsTruthy] at h
  | some v => simp

/-- **C9.** The filter object built by `searchDoctors` always carries
`status = "active"` and `isAcceptingNewPatients = true`; the specialty and city
keys are added (with the given value) only when the parameter is present; the
emergency key is added exactly when `supportsEmergency` is the string "true";
the consultation-mode keys exactly when `consultationType` is "telemedicine"
resp. "inClinic"; and the geospatial key only when `lat`, `lng` and `radiusKm`
are all present. -/
theorem searchDoctors_filter_invariants (q : SearchQuery) :
    (buildSearchFilters q).status = "active"
    ∧ (buildSearchFilters q).isAcceptingNewPatients = true
    ∧ ((buildSearchFilters q).specialties ≠ none →
        (buildSearchFilters q).specialties = q.specialty ∧ q.specialty ≠ none)
    ∧ ((buildSearchFilters q).clinicCity ≠ none →
        (buildSearchFilters q).clinicCity = q.city ∧ q.city ≠ none)
    ∧ ((buildSearchFilters q).supportsEmergency = some true ↔
        q.supportsEmergency = some "true")
    ∧ ((buildSearchFilters q).consultTelemedicine = some true ↔
        q.consultationType = some "telemedicine")
    ∧ ((buildSearchFilters q).consultInClinic = some true ↔
        q.consultationType = some "inClinic")
    ∧ ((buildSearchFilters q).hasLocationFilter = true →
        q.lat ≠ none ∧ q.lng ≠ none ∧ q.radiusKm ≠ none) := by
  refine ⟨rfl, rfl, ?_, ?_, ?_, ?_, ?_, ?_⟩
  · by_cases hj : jsTruthy q.specialty
    · intro _
      exact ⟨by simp [buildSearchFilters, hj], jsTruthy_ne_none _ hj⟩
    · intro hcon
      simp [buildSearchFilters, hj] at hcon
  · by_cases hj : jsTruthy q.city
    · intro _
      exact ⟨by simp [buildSearchFilters, hj], jsTruthy_ne_none _ hj⟩
    · intro hcon
      simp [buildSearchFilters, hj] at hcon
  · by_cases h : q.supportsEmergency = some "true"
    · simp [buildSearchFilters, h]
    · simp [buildSearchFilters, beq_eq_false_iff_ne.mpr h, h]
  · by_cases h : q.consultationType = some "telemedicine"
    · simp [buildSearchFilters, h]
    · simp [buildSearchFilters, beq_eq_false_iff_ne.mpr h, h]
  · by_cases h1 : q.consultationType = some "telemedicine"
    · simp [buildSearchFilters, h1]
    · by_cases h2 : q.consultationType = some "inClinic"
      · simp [buildSearchFilters, beq_eq_false_iff_ne.mpr h1, h2]
      · simp [buildSearchFilters, beq_eq_false_iff_ne.mpr h1,
          beq_eq_false_iff_ne.mpr h2, h2]
  · intro h
    simp only [buildSearchFilters, Bool.and_eq_true] at h
    exact ⟨jsTruthy_ne_none _ h.1.1, jsTruthy_ne_none _ h.1.2, jsTruthy_ne_none _ h.2⟩

/-- Witness for `searchDoctors_filter_invariants` at a fully-populated query. -/
theorem searchDoctors_filter_invariants_witness :
    (buildSearchFilters ⟨some "cardiology", some "Pune", some "telemedicine",
      some "true", some "18.52", some "73.85", some "5"⟩).status = "active"
    ∧ (buildSearchFilters ⟨some "cardiology", some "Pune", some "telemedicine",
      some "true", some "18.52", some "73.85", some "5"⟩).consultTelemedicine = some true
    ∧ (buildSearchFilters ⟨some "cardiology", some "Pune", some "telemedicine",
      some "true", some "18.52", some "73.85", some "5"⟩).supportsEmergency = some true :=
  ⟨(searchDoctors_filter_invariants ⟨some "cardiology", some "Pune", some "telemedicine",
      some "true", some "18.52", some "73.85", some "5"⟩).1,
   ((searchDoctors_filter_invariants ⟨some "cardiology", some "Pune", some "telemedicine",
      some "true", some "18.52", some "73.85", some "5"⟩).2.2.2.2.2.1).mpr rfl,
   ((searchDoctors_filter_invariants ⟨some "cardiology", some "Pune", some "telemedicine",
      some "true", some "18.52", some "73.85", some "5"⟩).2.2.2.2.1).mpr rfl⟩

/-! ### Digit strings: `Nat.repr` produces `natDigits`, which is injective,
digit-only and has no leading zero — hence `fmtHM` is injective on
nonnegative minute values. -/

theorem toDigitsCore_eq_natDigits : ∀ (fuel n : Nat) (ds : List Char), n < fuel →
    Nat.toDigitsCore 10 fuel n ds = natDigits n ++ ds := by
  intro fuel
  induction fuel with
  | zero => intro n ds h; omega
  | succ f ih =>
    intro n ds h
    by_cases h0 : n / 10 = 0
    · have hn : n < 10 := by omega
      rw [natDigits, dif_pos hn]
      simp [Nat.toDigitsCore, h0, Nat.mod_eq_of_lt hn]
    · have hn : ¬ n < 10 := by omega
      have hlt : n / 10 < f := by omega
      simp only [Nat.toDigitsCore, if_neg h0]
      rw [ih (n / 10) (Nat.digitChar (n % 10) :: ds) hlt]
      conv_rhs => rw [natDigits, dif_neg hn]
      simp [List.append_assoc]

theorem repr_data_eq_natDigits (n : Nat) : (Nat.repr n).data = natDigits n := by
  rw [Nat.repr, Nat.toDigits]
  rw [toDigitsCore_eq_natDigits (n + 1) n [] (Nat.lt_succ_self n)]
  simp [List.asString]

theorem digitChar_isDigit (k : Nat) (h : k < 10) : (Nat.digitChar k).isDigit = true := by
  interval_cases k <;> decide

theorem digitChar_injOn (a b : Nat) (ha : a < 10) (hb : b < 10)
    (h : Nat.digitChar a = Nat.digitChar b) : a = b := by
  interval_cases a <;> interval_cases b <;> revert h <;> decide

theorem digitChar_ne_zeroChar (k : Nat) (h1 : k < 10) (h2 : 0 < k) :
    Nat.digitChar k ≠ '0' := by
  interval_cases k <;> decide

theorem natDigits_ne_nil (n : Nat) : natDigits n ≠ [] := by
  by_cases h : n < 10
  · rw [natDigits, dif_pos h]; simp
  · rw [natDigits, dif_neg h]; simp

theorem natDigits_isDigit : ∀ n : Nat, ∀ c ∈ natDigits n, c.isDigit = true := by
  intro n
  induction n using Nat.strong_induction_on with
  | _ n ih =>
    by_cases h : n < 10
    · rw [natDigits, dif_pos h]
      intro c hc
      rw [List.mem_singleton.mp hc]
      exact digitChar_isDigit n h
    · rw [natDigits, dif_neg h]
      intro c hc
      rcases List.mem_append.mp hc with h1 | h2
      · exact ih (n / 10) (by omega) c h1
      · rw [List.mem_singleton.mp h2]
        exact digitChar_isDigit (n % 10) (Nat.mod_lt n (by omega))

theorem natDigits_length_ge (n : Nat) (h : ¬ n < 10) : 2 ≤ (natDigits n).length := by
  rw [natDigits, dif_neg h]
  have h1 : 0 < (natDigits (n / 10)).length :=
    List.length_pos.mpr (natDigits_ne_nil (n / 10))
  simp only [List.length_append, List.length_cons, List.length_nil]
  omega

theorem natDigits_head_ne_zeroChar :
    ∀ n : Nat, 0 < n → ∀ c, (natDigits n).head? = some c → c ≠ '0' := by
  intro n
  induction n using Nat.strong_induction_on with
  | _ n ih =>
    intro hn c hc
    by_cases h : n < 10
    · rw [natDigits, dif_pos h] at hc
      rw [show c = Nat.digitChar n from by simpa using hc.symm]
      exact digitChar_ne_zeroChar n h hn
    · rw [natDigits, dif_neg h] at hc
      obtain ⟨d, ds, hds⟩ := List.exists_cons_of_ne_nil (natDigits_ne_nil (n / 10))
      rw [hds] at hc
      simp only [List.cons_append, List.head?_cons, Option.some.injEq] at hc
      rw [← hc]
      exact ih (n / 10) (by omega) (by omega) d (by rw [hds]; rfl)

theorem natDigits_inj : ∀ m n : Nat, natDigits m = natDigits n → m = n := by
  intro m
  induction m using Nat.strong_induction_on with
  | _ m ih =>
    intro n h
    by_cases hm : m < 10 <;> by_cases hn : n < 10
    · rw [natDigits, dif_pos hm] at h
      rw [natDigits, dif_pos hn] at h
      exact digitChar_injOn m n hm hn (by simpa using h)
    · have h1 : (natDigits m).length = 1 := by rw [natDigits, dif_pos hm]; rfl
      have h2 := natDigits_length_ge n hn
      rw [h] at h1
      omega
    · have h1 : (natDigits n).length = 1 := by rw [natDigits, dif_pos hn]; rfl
      have h2 := natDigits_length_ge m hm
      rw [← h] at h1
      omega
    · rw [natDigits, dif_neg hm] at h
      rw [show natDigits n = natDigits (n / 10) ++ [Nat.digitChar (n % 10)] from
        by rw [natDigits, dif_neg hn]] at h
      have hrev := congrArg List.reverse h
      simp only [List.reverse_append, List.reverse_singleton, List.singleton_append,
        List.cons.injEq] at hrev
      have e1 : m % 10 = n % 10 :=
        digitChar_injOn _ _ (Nat.mod_lt m (by omega)) (Nat.mod_lt n (by omega)) hrev.1
      have e2 : m / 10 = n / 10 :=
        ih (m / 10) (by omega) (n / 10) (List.reverse_injective hrev.2)
      omega

theorem padStart2_data (s : String) :
    (padStart2 s).data = List.replicate (2 - s.data.length) '0' ++ s.data := by
  cases s
  rfl

theorem padRepr_inj (a b : Nat)
    (h : (padStart2 (Nat.repr a)).data = (padStart2 (Nat.repr b)).data) : a = b := by
  rw [padStart2_data, padStart2_data, repr_data_eq_natDigits, repr_data_eq_natDigits] at h
  by_cases ha : a < 10 <;> by_cases hb : b < 10
  · rw [natDigits, dif_pos ha] at h
    rw [natDigits, dif_pos hb] at h
    exact digitChar_injOn a b ha hb (by simpa using h)
  · have hlb := natDigits_length_ge b hb
    rw [natDigits, dif_pos ha] at h
    rw [show (2 : Nat) - (natDigits b).length = 0 from by omega] at h
    simp only [List.length_singleton, List.replicate, List.append_nil,
      List.nil_append, List.singleton_append] at h
    have hh : (natDigits b).head? = some '0' := by rw [← h]; rfl
    exact absurd rfl (natDigits_head_ne_zeroChar b (by omega) '0' hh)
  · have hla := natDigits_length_ge a ha
    rw [show natDigits b = [Nat.digitChar b] from by rw [natDigits, dif_pos hb]] at h
    rw [show (2 : Nat) - (natDigits a).length = 0 from by omega] at h
    simp only [List.length_singleton, List.replicate, List.append_nil,
      List.nil_append, List.singleton_append] at h
    have hh : (natDigits a).head? = some '0' := by rw [h]; rfl
    exact absurd rfl (natDigits_head_ne_zeroChar a (by omega) '0' hh)
  · have hla := natDigits_length_ge a ha
    have hlb := natDigits_length_ge b hb
    rw [show (2 : Nat) - (natDigits a).length = 0 from by omega,
      show (2 : Nat) - (natDigits b).length = 0 from by omega] at h
    simp only [List.replicate, List.nil_append] at h
    exact natDigits_inj a b h

theorem colon_not_mem_padRepr (a : Nat) : ':' ∉ (padStart2 (Nat.repr a)).data := by
  rw [padStart2_data, repr_data_eq_natDigits]
  intro hmem
  rcases List.mem_append.mp hmem with h1 | h2
  · exact absurd (List.eq_of_mem_replicate h1) (by decide)
  · exact absurd (natDigits_isDigit a ':' h2) (by decide)

theorem append_colon_inj : ∀ (l1 : List Char) (l2 r1 r2 : List Char),
    ':' ∉ l1 → ':' ∉ r1 → l1 ++ ':' :: l2 = r1 ++ ':' :: r2 → l1 = r1 ∧ l2 = r2 := by
  intro l1
  induction l1 with
  | nil =>
    intro l2 r1 r2 _ h2 h
    cases r1 with
    | nil => simpa using h
    | cons x xs =>
      simp only [List.nil_append, List.cons_append, List.cons.injEq] at h
      exact absurd (by rw [h.1]; exact List.mem_cons_self x xs) h2
  | cons x xs ih =>
    intro l2 r1 r2 h1 h2 h
    cases r1 with
    | nil =>
      simp only [List.cons_append, List.nil_append, List.cons.injEq] at h
      exact absurd (by rw [← h.1]; exact List.mem_cons_self x xs) h1
    | cons y ys =>
      simp only [List.cons_append, List.cons.injEq] at h
      have hx : ':' ∉ xs := fun hc => h1 (List.mem_cons_of_mem x hc)
      have hy : ':' ∉ ys := fun hc => h2 (List.mem_cons_of_mem y hc)
      obtain ⟨e1, e2⟩ := ih l2 ys r2 hx hy h.2
      exact ⟨by rw [h.1, e1], e2⟩

theorem fmtHM_ofNat (m : Nat) :
    fmtHM (m : Int) = padStart2 (Nat.repr (m / 60)) ++ ":" ++ padStart2 (Nat.repr (m % 60)) := by
  have h1 : Int.fdiv (m : Int) 60 = ((m / 60 : Nat) : Int) := by
    cases m with
    | zero => simp [Int.fdiv]
    | succ k => rfl
  have h2 : Int.tmod (m : Int) 60 = ((m % 60 : Nat) : Int) := rfl
  have h3 : ∀ j : Nat, Int.repr ((j : Nat) : Int) = Nat.repr j := fun j => rfl
  rw [fmtHM, h1, h2, h3, h3]

theorem fmtHM_inj (s t : Int) (hs : 0 ≤ s) (ht : 0 ≤ t) (h : fmtHM s = fmtHM t) :
    s = t := by
  obtain ⟨m, rfl⟩ := Int.eq_ofNat_of_zero_le hs
  obtain ⟨n, rfl⟩ := Int.eq_ofNat_of_zero_le ht
  rw [fmtHM_ofNat, fmtHM_ofNat] at h
  have hdata := congrArg String.data h
  have hsplit : (padStart2 (Nat.repr (m / 60))).data ++
      ':' :: (padStart2 (Nat.repr (m % 60))).data =
      (padStart2 (Nat.repr (n / 60))).data ++
      ':' :: (padStart2 (Nat.repr (n % 60))).data := by
    simpa [String.data_append, List.append_assoc] using hdata
  obtain ⟨e1, e2⟩ := append_colon_inj _ _ _ _
    (colon_not_mem_padRepr (m / 60)) (colon_not_mem_padRepr (n / 60)) hsplit
  have q1 : m / 60 = n / 60 := padRepr_inj _ _ e1
  have q2 : m % 60 = n % 60 := padRepr_inj _ _ e2
  have hmn : m = n := by omega
  exact_mod_cast congrArg (fun k : Nat => (k : Int)) hmn

/-- A parsed "HH:MM" value is nonnegative (it is `h * 60 + m` for naturals). -/
theorem parseHM_nonneg (str : String) (v : Int) (h : parseHM str = some v) : 0 ≤ v := by
  unfold parseHM at h
  split at h
  · split at h
    · injection h with hv
      omega
    · simp at h
  · simp at h

/-- **C10.** Within one session with positive duration, the emitted slot start
times are strictly increasing read as minutes since midnight (the slot list is
the formatted image of the minute values `sm + k * d`, which are pairwise
strictly increasing), and therefore the slot strings within the session are
pairwise distinct. -/
theorem sessionSlots_strictly_increasing (s : Session) (sm em : Int)
    (hs : parseHM s.startTime = some sm) (he : parseHM s.endTime = some em)
    (hd : 0 < s.slotDurationMinutes) :
    sessionSlots s = ((List.range (numSlots sm em s.slotDurationMinutes)).map
        (fun k : Nat => sm + (k : Int) * s.slotDurationMinutes)).map fmtHM
    ∧ List.Pairwise (· < ·) ((List.range (numSlots sm em s.slotDurationMinutes)).map
        (fun k : Nat => sm + (k : Int) * s.slotDurationMinutes))
    ∧ List.Pairwise (· ≠ ·) (sessionSlots s) := by
  have hsm : 0 ≤ sm := parseHM_nonneg _ _ hs
  have nonneg : ∀ k : Nat, 0 ≤ sm + (k : Int) * s.slotDurationMinutes := fun k =>
    add_nonneg hsm (mul_nonneg (Int.natCast_nonneg k) (le_of_lt hd))
  have hmono : List.Pairwise (fun a b : Int => a < b ∧ 0 ≤ a ∧ 0 ≤ b)
      ((List.range (numSlots sm em s.slotDurationMinutes)).map
        (fun k : Nat => sm + (k : Int) * s.slotDurationMinutes)) := by
    rw [List.pairwise_map]
    apply (List.pairwise_lt_range _).imp
    intro a b hab
    refine ⟨?_, nonneg a, nonneg b⟩
    have hcast : (a : Int) < (b : Int) := by exact_mod_cast hab
    have := mul_lt_mul_of_pos_right hcast hd
    omega
  have hconj1 : sessionSlots s = ((List.range (numSlots sm em s.slotDurationMinutes)).map
      (fun k : Nat => sm + (k : Int) * s.slotDurationMinutes)).map fmtHM := by
    rw [sessionSlots_closed s sm em hs he hd, List.map_map]
    simp [Function.comp_def]
  refine ⟨hconj1, hmono.imp (fun hab => hab.1), ?_⟩
  rw [hconj1, List.pairwise_map]
  exact hmono.imp
    (fun {a b} hab heq => (ne_of_lt hab.1) (fmtHM_inj a b hab.2.1 hab.2.2 heq))

/-- Witness for `sessionSlots_strictly_increasing` at the session
("09:00", "10:00", 20). -/
theorem sessionSlots_strictly_increasing_witness :
    List.Pairwise (· ≠ ·)
      (sessionSlots { startTime := "09:00", endTime := "10:00", slotDurationMinutes := 20 }) :=
  (sessionSlots_strictly_increasing
    { startTime := "09:00", endTime := "10:00", slotDurationMinutes := 20 }
    540 600 rfl rfl (by decide)).2.2

end DocterDash
